import Mathlib

/-!
Verification of `src/mcintegration.cpp`: a 3D Monte Carlo integrator that
partitions a sample budget across OpenMP workers, runs one GSL VEGAS sampling
pass per worker, and statistically combines the per-worker (mean, error)
pairs.  Doubles are modelled as real numbers; the 64-bit unsigned seed
arithmetic is modelled on ℕ with explicit reduction modulo 2^64.  The VEGAS
sampling core itself lives in the external GSL library, so it is kept
abstract (`SamplerCore`); the validation behaviour the spec assigns to the
sampler component is modelled from the spec where indicated.
-/

namespace MCI

/-- Embedding of `struct parameters` (mcintegration.cpp lines 33-36): the two
real coefficients consumed by the integrand. -/
structure parameters where
  p : ℝ
  q : ℝ

/-- Embedding of the integrand `f` (mcintegration.cpp lines 42-45):
`(x + y + z)*p + (x*x + y*y + z*z)*q`. -/
noncomputable def f (x y z : ℝ) (par : parameters) : ℝ :=
  (x + y + z) * par.p + (x * x + y * y + z * z) * par.q

/-- Embedding of the GSL integrand wrapper `integrand` (mcintegration.cpp
lines 51-62).  The wrapper discards its `dim` argument (`(void)dim`) and
unconditionally reads `k[0]`, `k[1]`, `k[2]`; reading past the end of the
point array is modelled as `none`. -/
noncomputable def integrand : List ℝ → ℕ → parameters → Option ℝ
  | x :: y :: z :: _, _, par => some (f x y z par)
  | _, _, _ => none

/-- Error kinds of the integration pipeline, from spec section 7. -/
inductive IntegrationError where
  | InvalidDimension
  | InvalidDomain
  | NoWorkers
  | WorkerFailure
deriving DecidableEq

/-- The additive constant `0x9e3779b97f4a7c15` used in the per-thread seed
derivation (mcintegration.cpp line 88). -/
def Cmagic : ℕ := 0x9e3779b97f4a7c15

/-- Embedding of the per-thread seed derivation (mcintegration.cpp lines
86-88): `time ^ (unsigned long)(thread_id + 0x9e3779b97f4a7c15ULL)`, with the
64-bit unsigned arithmetic made explicit as reduction modulo `2 ^ 64`. -/
def seed (t tid : ℕ) : ℕ :=
  (t % 2 ^ 64) ^^^ ((tid + Cmagic) % 2 ^ 64)

/-- Type of one worker's sampling call: bounds, dimension, parameter record,
per-worker sample budget and seed, producing either an error or a
(mean, standard-error) pair. -/
def SamplerT : Type :=
  List ℝ → List ℝ → ℕ → parameters → ℕ → ℕ → Except IntegrationError (ℝ × ℝ)

/-- Type of the abstract VEGAS sampling core: same inputs as `SamplerT`, but
total — it stands for the estimate the external sampling loop would return
once its input validation has passed. -/
def SamplerCore : Type :=
  List ℝ → List ℝ → ℕ → parameters → ℕ → ℕ → ℝ × ℝ

/-- One worker's step inside the parallel region (mcintegration.cpp lines
79-104): worker `tid` invokes the sampler with budget `calls / num_threads`
(line 97) and seed `seed (timeOf tid) tid` (lines 86-90). -/
def worker_step (sampler : SamplerT) (calls : ℕ) (xl xu : List ℝ) (dim : ℕ)
    (par : parameters) (num_threads : ℕ) (timeOf : ℕ → ℕ) (tid : ℕ) :
    Except IntegrationError (ℝ × ℝ) :=
  sampler xl xu dim par (calls / num_threads) (seed (timeOf tid) tid)

/-- Fan-out over the worker indices, collecting each worker's (mean, error)
pair; a failure of any worker invalidates the whole run (fail-fast, spec
section 4.2). -/
def runWorkers (step : ℕ → Except IntegrationError (ℝ × ℝ)) :
    List ℕ → Except IntegrationError (List (ℝ × ℝ))
  | [] => Except.ok []
  | tid :: rest =>
    match step tid with
    | Except.error e => Except.error e
    | Except.ok pr =>
      match runWorkers step rest with
      | Except.error e => Except.error e
      | Except.ok prs => Except.ok (pr :: prs)

/-- Embedding of `parallel_monte_carlo_integration` (mcintegration.cpp lines
68-115): run every worker, then combine — mean is
`accumulate(results)/num_threads` (line 107) and error is
`sqrt(sum of squared errors)/num_threads` (lines 110-114). -/
noncomputable def parallel_monte_carlo_integration (sampler : SamplerT)
    (calls : ℕ) (xl xu : List ℝ) (dim : ℕ) (par : parameters)
    (num_threads : ℕ) (timeOf : ℕ → ℕ) : Except IntegrationError (ℝ × ℝ) :=
  match runWorkers (worker_step sampler calls xl xu dim par num_threads timeOf)
      (List.range num_threads) with
  | Except.error e => Except.error e
  | Except.ok pairs =>
    Except.ok (((pairs.map Prod.fst).sum) / (num_threads : ℝ),
      Real.sqrt (((pairs.map Prod.snd).map (fun e => e * e)).sum) / (num_threads : ℝ))

/-- Modelled from the spec: the domain-validity predicate of the Adaptive
Sampler component (spec section 4.1 and section 3), whose implementation (the
GSL VEGAS routine) is not under `src/`.  A domain is invalid when some
dimension has its lower bound strictly above its upper bound. -/
def domainInvalid (xl xu : List ℝ) (dim : ℕ) : Prop :=
  ∃ i, i < dim ∧ xu.getD i 0 < xl.getD i 0

/-- Modelled from the spec: the Adaptive Sampler component (spec section 4.1),
whose implementation — the GSL `gsl_monte_vegas_integrate` routine — is not
under `src/`.  Per the spec it fails with `InvalidDimension` when the declared
dimension does not match the number of bound components, fails with
`InvalidDomain` when some lower bound exceeds its paired upper bound, and
otherwise returns the estimate of the (abstract) sampling core. -/
noncomputable def gsl_monte_vegas_integrate (core : SamplerCore) : SamplerT :=
  fun xl xu dim par calls seedv =>
    if xl.length ≠ dim ∨ xu.length ≠ dim then
      Except.error IntegrationError.InvalidDimension
    else
      haveI := Classical.propDecidable (domainInvalid xl xu dim)
      if domainInvalid xl xu dim then Except.error IntegrationError.InvalidDomain
      else Except.ok (core xl xu dim par calls seedv)

/-- Caller-visible state of one integration call: the two bound vectors and
the parameter record (the C++ passes `xl`, `xu` as pointers and `par` by
reference). -/
structure CallState where
  xl : List ℝ
  xu : List ℝ
  par : parameters

/-- State-passing embedding of one full call to
`parallel_monte_carlo_integration`: the body (mcintegration.cpp lines 68-115)
contains no assignment to `xl`, `xu` or `par` — its only writes are to the
local `results`/`errors` vectors, the worker-local rng and VEGAS state (freed
before return), and the `result`/`error` out-parameters — so the post-state
fields are rebuilt from the pre-state reads. -/
noncomputable def parallel_mci_call (sampler : SamplerT) (calls : ℕ)
    (dim : ℕ) (num_threads : ℕ) (timeOf : ℕ → ℕ) (s : CallState) :
    Except IntegrationError (ℝ × ℝ) × CallState :=
  (parallel_monte_carlo_integration sampler calls s.xl s.xu dim s.par
      num_threads timeOf,
   { xl := s.xl, xu := s.xu, par := s.par })

/-- Congruence for the worker fan-out: two step functions agreeing on every
dispatched worker index produce the same outcome. -/
theorem runWorkers_congr (step₁ step₂ : ℕ → Except IntegrationError (ℝ × ℝ))
    (l : List ℕ) (h : ∀ tid ∈ l, step₁ tid = step₂ tid) :
    runWorkers step₁ l = runWorkers step₂ l := by
  induction l with
  | nil => rfl
  | cons t rest ih =>
    unfold runWorkers
    rw [h t (List.mem_cons_self t rest),
      ih (fun tid ht => h tid (List.mem_cons_of_mem t ht))]

/-- C1: for every worker count `W ≥ 1` and list `ws` of `W` worker results
that the fan-out produced, the pair returned by
`parallel_monte_carlo_integration` has mean equal to the arithmetic mean of
the worker means (the plain sum divided by `W`, no variance weighting) and
error equal to `sqrt (e₁² + ... + e_W²) / W`, exactly. -/
theorem combination_rule_exact (sampler : SamplerT) (calls : ℕ)
    (xl xu : List ℝ) (dim : ℕ) (par : parameters) (num_threads : ℕ)
    (timeOf : ℕ → ℕ) (ws : List (ℝ × ℝ)) (hW : 1 ≤ num_threads)
    (hlen : ws.length = num_threads)
    (hrun : runWorkers (worker_step sampler calls xl xu dim par num_threads timeOf)
      (List.range num_threads) = Except.ok ws) :
    parallel_monte_carlo_integration sampler calls xl xu dim par num_threads timeOf
      = Except.ok (((ws.map Prod.fst).sum) / (num_threads : ℝ),
          Real.sqrt (((ws.map Prod.snd).map (fun e => e * e)).sum) / (num_threads : ℝ)) := by
  unfold parallel_monte_carlo_integration
  rw [hrun]

/-- Witness for C1 at two workers each reporting the pair `(3, 4)`. -/
theorem combination_rule_exact_witness :
    ((1 : ℕ) ≤ 2 ∧ ([((3 : ℝ), (4 : ℝ)), (3, 4)].length = 2) ∧
      runWorkers (worker_step (fun _ _ _ _ _ _ => Except.ok (3, 4)) 100 [0, 0, 0]
          [1, 1, 1] 3 ⟨0.1, 0.1⟩ 2 (fun _ => 0)) (List.range 2)
        = Except.ok [((3 : ℝ), (4 : ℝ)), (3, 4)]) ∧
    parallel_monte_carlo_integration (fun _ _ _ _ _ _ => Except.ok (3, 4)) 100
        [0, 0, 0] [1, 1, 1] 3 ⟨0.1, 0.1⟩ 2 (fun _ => 0)
      = Except.ok ((([((3 : ℝ), (4 : ℝ)), (3, 4)].map Prod.fst).sum) / ((2 : ℕ) : ℝ),
          Real.sqrt ((([((3 : ℝ), (4 : ℝ)), (3, 4)].map Prod.snd).map
            (fun e => e * e)).sum) / ((2 : ℕ) : ℝ)) :=
  ⟨⟨by norm_num, rfl, rfl⟩,
   combination_rule_exact (fun _ _ _ _ _ _ => Except.ok (3, 4)) 100 [0, 0, 0]
     [1, 1, 1] 3 ⟨0.1, 0.1⟩ 2 (fun _ => 0) [(3, 4), (3, 4)] (by norm_num) rfl rfl⟩

/-- C2: with total budget `calls` and `num_threads ≥ 1` workers, every
worker's sampling run receives exactly `calls / num_threads` samples
(integer division): the aggregate result depends on the sampler only through
its behaviour at that per-worker budget, and the remainder
`calls % num_threads` is exactly the part of the budget not distributed to
any worker. -/
theorem samples_per_worker_div (s₁ s₂ : SamplerT) (calls : ℕ)
    (xl xu : List ℝ) (dim : ℕ) (par : parameters) (num_threads : ℕ)
    (timeOf : ℕ → ℕ) (hW : 1 ≤ num_threads)
    (hagree : ∀ xl' xu' dim' par' sd,
      s₁ xl' xu' dim' par' (calls / num_threads) sd
        = s₂ xl' xu' dim' par' (calls / num_threads) sd) :
    parallel_monte_carlo_integration s₁ calls xl xu dim par num_threads timeOf
        = parallel_monte_carlo_integration s₂ calls xl xu dim par num_threads timeOf
      ∧ num_threads * (calls / num_threads) + calls % num_threads = calls := by
  constructor
  · unfold parallel_monte_carlo_integration
    rw [runWorkers_congr
      (worker_step s₁ calls xl xu dim par num_threads timeOf)
      (worker_step s₂ calls xl xu dim par num_threads timeOf)
      (List.range num_threads)
      (fun tid _ => hagree xl xu dim par (seed (timeOf tid) tid))]
  · exact Nat.div_add_mod calls num_threads

/-- Witness for C2 at a budget of 101 samples over two workers. -/
theorem samples_per_worker_div_witness :
    ((1 : ℕ) ≤ 2) ∧
    (parallel_monte_carlo_integration (fun _ _ _ _ _ _ => Except.ok ((1 : ℝ), 1))
          101 [0] [1] 1 ⟨0.1, 0.1⟩ 2 (fun _ => 0)
        = parallel_monte_carlo_integration (fun _ _ _ _ _ _ => Except.ok ((1 : ℝ), 1))
          101 [0] [1] 1 ⟨0.1, 0.1⟩ 2 (fun _ => 0)
      ∧ 2 * (101 / 2) + 101 % 2 = 101) :=
  ⟨by norm_num,
   samples_per_worker_div (fun _ _ _ _ _ _ => Except.ok ((1 : ℝ), 1))
     (fun _ _ _ _ _ _ => Except.ok ((1 : ℝ), 1)) 101 [0] [1] 1 ⟨0.1, 0.1⟩ 2
     (fun _ => 0) (by norm_num) (fun _ _ _ _ _ => rfl)⟩

/-- C9: two integration calls with the same integrand, domain, dimension,
parameters, budget and worker count whose per-worker derived seeds coincide
produce identical (mean, error) results. -/
theorem determinism_same_seeds (sampler : SamplerT) (calls : ℕ)
    (xl xu : List ℝ) (dim : ℕ) (par : parameters) (num_threads : ℕ)
    (timeOf₁ timeOf₂ : ℕ → ℕ)
    (hseed : ∀ tid < num_threads, seed (timeOf₁ tid) tid = seed (timeOf₂ tid) tid) :
    parallel_monte_carlo_integration sampler calls xl xu dim par num_threads timeOf₁
      = parallel_monte_carlo_integration sampler calls xl xu dim par num_threads timeOf₂ := by
  have h : runWorkers (worker_step sampler calls xl xu dim par num_threads timeOf₁)
      (List.range num_threads)
      = runWorkers (worker_step sampler calls xl xu dim par num_threads timeOf₂)
        (List.range num_threads) := by
    apply runWorkers_congr
    intro tid htid
    unfold worker_step
    rw [hseed tid (List.mem_range.mp htid)]
  unfold parallel_monte_carlo_integration
  rw [h]

/-- Witness for C9: the two calls read times `7 + 2 ^ 64` and `7` — different
raw time values whose derived per-worker seeds coincide — and return the same
result. -/
theorem determinism_same_seeds_witness :
    (∀ tid < 2, seed ((fun _ => 7 + 2 ^ 64) tid) tid = seed ((fun _ => 7) tid) tid) ∧
    parallel_monte_carlo_integration (fun _ _ _ _ _ _ => Except.ok ((1 : ℝ), 1))
        100 [0] [1] 1 ⟨0.1, 0.1⟩ 2 (fun _ => 7 + 2 ^ 64)
      = parallel_monte_carlo_integration (fun _ _ _ _ _ _ => Except.ok ((1 : ℝ), 1))
        100 [0] [1] 1 ⟨0.1, 0.1⟩ 2 (fun _ => 7) :=
  ⟨fun _ _ => by unfold seed; rw [Nat.add_mod_right],
   determinism_same_seeds (fun _ _ _ _ _ _ => Except.ok ((1 : ℝ), 1)) 100 [0] [1]
     1 ⟨0.1, 0.1⟩ 2 (fun _ => 7 + 2 ^ 64) (fun _ => 7)
     (fun _ _ => by unfold seed; rw [Nat.add_mod_right])⟩

/-- C3 counterexample: two distinct workers (indices 0 and 1) with distinct
high-resolution time readings whose derived seeds are equal, refuting the
claim that the derivation makes every pair of distinct workers get distinct
seeds even when their time readings differ.  The second time reading is the
first one with its two lowest bits flipped, which exactly cancels the
increment of the worker index inside the XOR. -/
theorem seed_collision_across_times :
    seed 1700000000000000000 0 = seed 1700000000000000003 1
      ∧ (1700000000000000000 : ℕ) ≠ 1700000000000000003
      ∧ (0 : ℕ) ≠ 1 := by
  refine ⟨?_, by norm_num, by norm_num⟩
  decide

/-- C3 (amended): the seed derivation guarantees distinct seeds only for
distinct workers that read the same time value: if two workers with indices
below `2 ^ 64` obtain the same time reading, their derived seeds differ. -/
theorem seed_distinct_same_time (t i j : ℕ) (hi : i < 2 ^ 64)
    (hj : j < 2 ^ 64) (hij : i ≠ j) : seed t i ≠ seed t j := by
  intro h
  unfold seed at h
  have h2 : (i + Cmagic) % 2 ^ 64 = (j + Cmagic) % 2 ^ 64 := by
    have hb := congrArg (fun x => (t % 2 ^ 64) ^^^ x) h
    simpa [← Nat.xor_assoc, Nat.xor_self, Nat.zero_xor] using hb
  have h3 : i % 2 ^ 64 = j % 2 ^ 64 := Nat.ModEq.add_right_cancel' Cmagic h2
  rw [Nat.mod_eq_of_lt hi, Nat.mod_eq_of_lt hj] at h3
  exact hij h3

/-- Witness for the amended C3 at time 5 and worker indices 0 and 1. -/
theorem seed_distinct_same_time_witness :
    ((0 : ℕ) < 2 ^ 64 ∧ (1 : ℕ) < 2 ^ 64 ∧ (0 : ℕ) ≠ 1)
      ∧ seed 5 0 ≠ seed 5 1 :=
  ⟨⟨by norm_num, by norm_num, by norm_num⟩,
   seed_distinct_same_time 5 0 1 (by norm_num) (by norm_num) (by norm_num)⟩

/-- C10: the integrand wrapper ignores its `dim` argument and reads exactly
the first three components of the point array: it yields a value precisely
when the array has at least 3 elements, and two arrays with the same first
three components give the same result whatever the declared dimensions. -/
theorem integrand_first_three_components (k k' : List ℝ) (d₁ d₂ : ℕ)
    (par : parameters) (hk : k.take 3 = k'.take 3) :
    integrand k d₁ par = integrand k d₂ par
      ∧ ((integrand k d₁ par).isSome ↔ 3 ≤ k.length)
      ∧ integrand k d₁ par = integrand k' d₂ par := by
  have hdim : ∀ (kk : List ℝ) (e₁ e₂ : ℕ), integrand kk e₁ par = integrand kk e₂ par := by
    intro kk e₁ e₂
    rcases kk with _ | ⟨a, _ | ⟨b, _ | ⟨c, rest⟩⟩⟩ <;> simp [integrand]
  refine ⟨hdim k d₁ d₂, ?_, ?_⟩
  · rcases k with _ | ⟨a, _ | ⟨b, _ | ⟨c, rest⟩⟩⟩ <;> simp [integrand]
  · rcases k with _ | ⟨a, _ | ⟨b, _ | ⟨c, rest⟩⟩⟩ <;>
      rcases k' with _ | ⟨a', _ | ⟨b', _ | ⟨c', rest'⟩⟩⟩ <;>
      simp_all [integrand, List.take]

/-- Witness for C10 at the points `[1, 2, 3, 4]` and `[1, 2, 3, 9]` with
declared dimensions 3 and 7. -/
theorem integrand_first_three_components_witness :
    ([(1 : ℝ), 2, 3, 4].take 3 = [(1 : ℝ), 2, 3, 9].take 3)
      ∧ (integrand [(1 : ℝ), 2, 3, 4] 3 ⟨0.1, 0.1⟩
            = integrand [(1 : ℝ), 2, 3, 4] 7 ⟨0.1, 0.1⟩
        ∧ ((integrand [(1 : ℝ), 2, 3, 4] 3 ⟨0.1, 0.1⟩).isSome
            ↔ 3 ≤ [(1 : ℝ), 2, 3, 4].length)
        ∧ integrand [(1 : ℝ), 2, 3, 4] 3 ⟨0.1, 0.1⟩
            = integrand [(1 : ℝ), 2, 3, 9] 7 ⟨0.1, 0.1⟩) :=
  ⟨rfl, integrand_first_three_components [(1 : ℝ), 2, 3, 4] [(1 : ℝ), 2, 3, 9]
    3 7 ⟨0.1, 0.1⟩ rfl⟩

/-- Helper: when the bound-vector lengths match the declared dimension but the
domain is invalid, every sampling call of the spec-modelled VEGAS routine
fails with `InvalidDomain`, whatever the abstract sampling core. -/
theorem vegas_invalid_domain (core : SamplerCore) (xl xu : List ℝ) (dim : ℕ)
    (par : parameters) (calls seedv : ℕ) (hl : xl.length = dim)
    (hu : xu.length = dim) (hinv : domainInvalid xl xu dim) :
    gsl_monte_vegas_integrate core xl xu dim par calls seedv
      = Except.error IntegrationError.InvalidDomain := by
  unfold gsl_monte_vegas_integrate
  rw [if_neg (by simp [hl, hu]), if_pos hinv]

/-- C4: for every domain whose bound vectors have the declared length but in
which some dimension has its lower bound above its upper bound, the
integration call fails with `InvalidDomain` — whatever estimate the sampling
core would have produced, so before any sampling occurs — rather than
returning a (mean, error) pair. -/
theorem invalid_domain_fails (core : SamplerCore) (calls : ℕ)
    (xl xu : List ℝ) (dim : ℕ) (par : parameters) (num_threads : ℕ)
    (timeOf : ℕ → ℕ) (hW : 1 ≤ num_threads) (hl : xl.length = dim)
    (hu : xu.length = dim) (hinv : domainInvalid xl xu dim) :
    parallel_monte_carlo_integration (gsl_monte_vegas_integrate core) calls
        xl xu dim par num_threads timeOf
      = Except.error IntegrationError.InvalidDomain := by
  obtain ⟨n, rfl⟩ := Nat.exists_eq_succ_of_ne_zero (Nat.one_le_iff_ne_zero.mp hW)
  have hstep : ∀ tid, worker_step (gsl_monte_vegas_integrate core) calls xl xu
      dim par (n + 1) timeOf tid = Except.error IntegrationError.InvalidDomain := by
    intro tid
    unfold worker_step
    exact vegas_invalid_domain core xl xu dim par _ _ hl hu hinv
  unfold parallel_monte_carlo_integration
  rw [List.range_succ_eq_map]
  simp [runWorkers, hstep]

/-- Witness for C4 at the spec's concrete inverted domain
`lower = [0, 1, 0]`, `upper = [1, 0, 1]` (dimension 1 inverted). -/
theorem invalid_domain_fails_witness :
    ((1 : ℕ) ≤ 4 ∧ ([(0 : ℝ), 1, 0].length = 3) ∧ ([(1 : ℝ), 0, 1].length = 3)
        ∧ domainInvalid [(0 : ℝ), 1, 0] [(1 : ℝ), 0, 1] 3)
      ∧ parallel_monte_carlo_integration
          (gsl_monte_vegas_integrate (fun _ _ _ _ _ _ => (0, 0))) 10000000
          [(0 : ℝ), 1, 0] [(1 : ℝ), 0, 1] 3 ⟨0.1, 0.1⟩ 4 (fun _ => 0)
        = Except.error IntegrationError.InvalidDomain :=
  ⟨⟨by norm_num, rfl, rfl,
    ⟨1, by norm_num, by simp only [List.getD_cons_succ, List.getD_cons_zero]; norm_num⟩⟩,
   invalid_domain_fails (fun _ _ _ _ _ _ => (0, 0)) 10000000 [(0 : ℝ), 1, 0]
     [(1 : ℝ), 0, 1] 3 ⟨0.1, 0.1⟩ 4 (fun _ => 0) (by norm_num) rfl rfl
     ⟨1, by norm_num, by simp only [List.getD_cons_succ, List.getD_cons_zero]; norm_num⟩⟩

/-- C5: whenever the declared dimension does not match the number of
components of one of the bound vectors, the integration call fails with
`InvalidDimension` — again for every abstract sampling core, so no result is
produced. -/
theorem invalid_dimension_fails (core : SamplerCore) (calls : ℕ)
    (xl xu : List ℝ) (dim : ℕ) (par : parameters) (num_threads : ℕ)
    (timeOf : ℕ → ℕ) (hW : 1 ≤ num_threads)
    (hmis : xl.length ≠ dim ∨ xu.length ≠ dim) :
    parallel_monte_carlo_integration (gsl_monte_vegas_integrate core) calls
        xl xu dim par num_threads timeOf
      = Except.error IntegrationError.InvalidDimension := by
  obtain ⟨n, rfl⟩ := Nat.exists_eq_succ_of_ne_zero (Nat.one_le_iff_ne_zero.mp hW)
  have hstep : ∀ tid, worker_step (gsl_monte_vegas_integrate core) calls xl xu
      dim par (n + 1) timeOf tid
      = Except.error IntegrationError.InvalidDimension := by
    intro tid
    unfold worker_step gsl_monte_vegas_integrate
    rw [if_pos hmis]
  unfold parallel_monte_carlo_integration
  rw [List.range_succ_eq_map]
  simp [runWorkers, hstep]

/-- Witness for C5: three-component bounds with declared dimension 2. -/
theorem invalid_dimension_fails_witness :
    ((1 : ℕ) ≤ 4 ∧ (([(0 : ℝ), 0, 0].length ≠ 2) ∨ ([(1 : ℝ), 1, 1].length ≠ 2)))
      ∧ parallel_monte_carlo_integration
          (gsl_monte_vegas_integrate (fun _ _ _ _ _ _ => (0, 0))) 10000000
          [(0 : ℝ), 0, 0] [(1 : ℝ), 1, 1] 2 ⟨0.1, 0.1⟩ 4 (fun _ => 0)
        = Except.error IntegrationError.InvalidDimension :=
  ⟨⟨by norm_num, Or.inl (by norm_num)⟩,
   invalid_dimension_fails (fun _ _ _ _ _ _ => (0, 0)) 10000000 [(0 : ℝ), 0, 0]
     [(1 : ℝ), 1, 1] 2 ⟨0.1, 0.1⟩ 4 (fun _ => 0) (by norm_num)
     (Or.inl (by norm_num))⟩

/-- C6 counterexample: with a worker count of zero the embedded call does not
fail with `NoWorkers`; no worker-count check exists in the code, the empty
result vectors are combined, and the divisions by the worker count are
performed regardless (the C++ divides by zero here; with Lean's total
division the call returns the pair `(0, 0)`). -/
theorem no_workers_not_error :
    parallel_monte_carlo_integration
        (gsl_monte_vegas_integrate (fun _ _ _ _ _ _ => (1, 1))) 10000000
        [(0 : ℝ), 0, 0] [(1 : ℝ), 1, 1] 3 ⟨0.1, 0.1⟩ 0 (fun _ => 0)
        = Except.ok (0, 0)
      ∧ parallel_monte_carlo_integration
          (gsl_monte_vegas_integrate (fun _ _ _ _ _ _ => (1, 1))) 10000000
          [(0 : ℝ), 0, 0] [(1 : ℝ), 1, 1] 3 ⟨0.1, 0.1⟩ 0 (fun _ => 0)
        ≠ Except.error IntegrationError.NoWorkers := by
  have h : parallel_monte_carlo_integration
      (gsl_monte_vegas_integrate (fun _ _ _ _ _ _ => (1, 1))) 10000000
      [(0 : ℝ), 0, 0] [(1 : ℝ), 1, 1] 3 ⟨0.1, 0.1⟩ 0 (fun _ => 0)
      = Except.ok (0, 0) := by
    unfold parallel_monte_carlo_integration
    simp [runWorkers, List.range_zero, Real.sqrt_zero]
  exact ⟨h, by rw [h]; simp⟩

/-- C6 (amended): the code has no worker-count check and no `NoWorkers`
error path: with zero workers the call still returns a (mean, error) pair,
obtained by dividing the empty accumulations by the worker count (division
by zero in the C++ source; `(0, 0)` under Lean's total division). -/
theorem zero_workers_returns_zero_pair (sampler : SamplerT) (calls : ℕ)
    (xl xu : List ℝ) (dim : ℕ) (par : parameters) (timeOf : ℕ → ℕ) :
    parallel_monte_carlo_integration sampler calls xl xu dim par 0 timeOf
      = Except.ok (0, 0) := by
  unfold parallel_monte_carlo_integration
  simp [runWorkers, List.range_zero, Real.sqrt_zero]

/-- C7: an integration call leaves the caller-visible state — the bound
vectors `xl`, `xu` and the parameter record `par` — unchanged: the source
(mcintegration.cpp lines 68-115) contains no assignment to them, so the
post-state of the state-passing embedding coincides with the pre-state on
every field. -/
theorem call_preserves_domain_and_params (sampler : SamplerT)
    (calls dim num_threads : ℕ) (timeOf : ℕ → ℕ) (s : CallState) :
    (parallel_mci_call sampler calls dim num_threads timeOf s).2.xl = s.xl
      ∧ (parallel_mci_call sampler calls dim num_threads timeOf s).2.xu = s.xu
      ∧ (parallel_mci_call sampler calls dim num_threads timeOf s).2.par = s.par :=
  ⟨rfl, rfl, rfl⟩

/-- Closed form for the interval integral of a quadratic polynomial over
`[0, 1]`. -/
theorem poly_integral (a b c : ℝ) :
    (∫ t in (0 : ℝ)..1, (a + b * t + c * t ^ 2)) = a + b / 2 + c / 3 := by
  have h1 : IntervalIntegrable (fun _ : ℝ => a) MeasureTheory.volume 0 1 :=
    intervalIntegrable_const
  have h2 : IntervalIntegrable (fun t : ℝ => b * t) MeasureTheory.volume 0 1 :=
    (continuous_const.mul continuous_id).intervalIntegrable 0 1
  have h3 : IntervalIntegrable (fun t : ℝ => c * t ^ 2) MeasureTheory.volume 0 1 :=
    (continuous_const.mul (continuous_pow 2)).intervalIntegrable 0 1
  rw [intervalIntegral.integral_add (h1.add h2) h3,
    intervalIntegral.integral_add h1 h2, intervalIntegral.integral_const,
    intervalIntegral.integral_const_mul, intervalIntegral.integral_const_mul,
    integral_id, integral_pow]
  norm_num
  ring

/-- Analytic oracle for the program's concrete scenario (mcintegration.cpp
lines 121-146): the exact integral of the integrand with `p = q = 0.1` over
the unit cube `[0, 1]^3` equals `1/4`, the value `main` prints as the
expected result. -/
theorem f_integral_unit_cube :
    (∫ x in (0 : ℝ)..1, ∫ y in (0 : ℝ)..1, ∫ z in (0 : ℝ)..1,
      f x y z ⟨0.1, 0.1⟩) = 1 / 4 := by
  have hz : ∀ x y : ℝ, (∫ z in (0 : ℝ)..1, f x y z ⟨0.1, 0.1⟩)
      = (x + y) * 0.1 + (x * x + y * y) * 0.1 + 0.1 / 2 + 0.1 / 3 := by
    intro x y
    have h := poly_integral ((x + y) * 0.1 + (x * x + y * y) * 0.1) 0.1 0.1
    rw [← h]
    apply intervalIntegral.integral_congr
    intro z _
    simp only [f]
    ring
  have hy : ∀ x : ℝ, (∫ y in (0 : ℝ)..1,
        ((x + y) * 0.1 + (x * x + y * y) * 0.1 + 0.1 / 2 + 0.1 / 3))
      = x * 0.1 + x * x * 0.1 + 0.1 / 2 + 0.1 / 3 + 0.1 / 2 + 0.1 / 3 := by
    intro x
    have h := poly_integral (x * 0.1 + x * x * 0.1 + 0.1 / 2 + 0.1 / 3) 0.1 0.1
    rw [← h]
    apply intervalIntegral.integral_congr
    intro y _
    ring
  have hyz : ∀ x : ℝ, (∫ y in (0 : ℝ)..1, ∫ z in (0 : ℝ)..1, f x y z ⟨0.1, 0.1⟩)
      = x * 0.1 + x * x * 0.1 + 0.1 / 2 + 0.1 / 3 + 0.1 / 2 + 0.1 / 3 := by
    intro x
    rw [← hy x]
    apply intervalIntegral.integral_congr
    intro y _
    exact hz x y
  have hcong : (∫ x in (0 : ℝ)..1, ∫ y in (0 : ℝ)..1, ∫ z in (0 : ℝ)..1,
        f x y z ⟨0.1, 0.1⟩)
      = ∫ x in (0 : ℝ)..1,
          ((0.1 / 2 + 0.1 / 3 + 0.1 / 2 + 0.1 / 3) + 0.1 * x + 0.1 * x ^ 2) := by
    apply intervalIntegral.integral_congr
    intro x _
    exact (hyz x).trans (by ring)
  rw [hcong, poly_integral]
  norm_num

end MCI
